import Mathlib

/-!
Verification development for the legal-database handler of the lawbot
repository (src/handlers/legal_database.py).  The Python code is shallow
embedded: strings are lists of characters, the process-wide article cache
is passed explicitly, network fetching is a parameter function, and time
is an explicit natural number of seconds.
-/

namespace LawBot

/-- Strings of the embedded program, as lists of characters. -/
abbrev Str := List Char

/-- An article map: article identifier to article text, in insertion
(document) order, with unique keys. -/
abbrev ArticleMap := List (Str × Str)

/-- Whitespace test used by the embedding.  Models the whitespace class of
Python (str.strip, str.split, the regex class \s) on the ASCII whitespace
characters; the Unicode-only space code points are not modelled and are
not exercised by any theorem below. -/
def isSpaceChar (c : Char) : Bool :=
  c = ' ' || c = '\t' || c = '\n' || c = '\x0d' || c = '\x0b' || c = '\x0c'

/-- Lower-casing of one character.  Models Python str.lower on ASCII
letters and on the Cyrillic letters used by the repository (the basic
Cyrillic capital block U+0410..U+042F and the Ukrainian letters
Є I-with-dots Ї Ґ); other code points are returned unchanged, which
matches Python on every character exercised below. -/
def lowerChar (c : Char) : Char :=
  if 0x41 ≤ c.toNat ∧ c.toNat ≤ 0x5a then Char.ofNat (c.toNat + 0x20)
  else if 0x410 ≤ c.toNat ∧ c.toNat ≤ 0x42f then Char.ofNat (c.toNat + 0x20)
  else if c.toNat = 0x404 then Char.ofNat 0x454
  else if c.toNat = 0x406 then Char.ofNat 0x456
  else if c.toNat = 0x407 then Char.ofNat 0x457
  else if c.toNat = 0x490 then Char.ofNat 0x491
  else c

/-- Lower-casing of a string, character by character. -/
def lowerStr (s : Str) : Str := s.map lowerChar

/-- Leading- and trailing-whitespace stripping: models Python str.strip()
and the strip=True mode of get_text. -/
def trim (s : Str) : Str :=
  ((s.dropWhile isSpaceChar).reverse.dropWhile isSpaceChar).reverse

/-- Helper for splitWs: walk the string keeping the current in-progress
word (reversed). -/
def splitWsAux : Str → Str → List Str
  | [], cur => if cur = [] then [] else [cur.reverse]
  | c :: cs, cur =>
      if isSpaceChar c then
        if cur = [] then splitWsAux cs [] else cur.reverse :: splitWsAux cs []
      else splitWsAux cs (c :: cur)

/-- Models Python str.split() with no separator: split on runs of
whitespace, discarding empty pieces. -/
def splitWs (s : Str) : List Str := splitWsAux s []

/-- Decimal-digit test of the Python regex class \d (with the default
Unicode semantics of Python 3).  Modelled on the ASCII digits plus the
Arabic-Indic digits U+0660..U+0669; \d also accepts the remaining Unicode
Nd code points, which are not exercised by any theorem below. -/
def pyDigit (c : Char) : Bool :=
  c.isDigit || (0x660 ≤ c.toNat && c.toNat ≤ 0x669)

/-- Model of re.match(r&, text) with the pattern matching a full line of
digits, as written in handle_article_number: one or more \d characters
anchored at the start, with the dollar anchor matching either at the end
of the string or just before one final newline (Python dollar
semantics). -/
def pyMatchNumber (t : Str) : Bool :=
  let core := if t.getLast? = some '\n' then t.dropLast else t
  decide (core ≠ []) && core.all pyDigit

/-! ## Document fetcher (fetch_page_content) -/

/-- Model of fetch_page_content as the module actually executes.  The
parameter responses maps the attempt index to the outcome of the HTTP GET:
none models a transport error or timeout (the aiohttp call raising), and
some (status, body) a completed response.  A 200 response returns the
body.  On a 429 response with attempt < 3 the source evaluates
asyncio.sleep, but the module never imports asyncio, so a NameError is
raised inside the try block, caught by the blanket except handler, and
None is returned: the recursive retry call is dead code.  Every non-200
outcome therefore returns None at once. -/
def fetch_page_content (responses : Nat → Option (Nat × Str)) (attempt : Nat) :
    Option Str :=
  match responses attempt with
  | none => none
  | some (status, body) => if status = 200 then some body else none

/-- Modelled from the spec: the retry behaviour that fetch_page_content
documents in its own docstring (retries) and inline comments (exponential
backoff) but does not deliver because the asyncio import is missing.  On a
429 response with attempt < 3 it sleeps 2 ^ attempt time units and retries
with attempt + 1; the returned list records the backoff delays slept. -/
def fetch_page_retryF (responses : Nat → Option (Nat × Str)) :
    Nat → Nat → Option Str × List Nat
  | 0, _ => (none, [])
  | fuel + 1, attempt =>
      match responses attempt with
      | none => (none, [])
      | some (status, body) =>
          if status = 200 then (some body, [])
          else if status = 429 ∧ attempt < 3 then
            let r := fetch_page_retryF responses fuel (attempt + 1)
            (r.1, 2 ^ attempt :: r.2)
          else (none, [])

/-- Retry model entry point: the attempt-below-3 gate bounds the recursion
depth from any starting attempt by 4, so fuel 4 is never exhausted. -/
def fetch_page_retry (responses : Nat → Option (Nat × Str)) (attempt : Nat) :
    Option Str × List Nat :=
  fetch_page_retryF responses 4 attempt

/-! ## Code cache (fetch_and_parse_code) -/

/-- A catalog entry of LEGAL_CODES: the cache key and the two candidate
URLs, the print-optimised layout first. -/
structure CodeData where
  id : Str
  url : Str
  print_url : Str

/-- The process-wide article_cache, passed explicitly: cache key to
(timestamp, articles). -/
def Cache := Str → Option (Nat × ArticleMap)

/-- cache_timeout = timedelta(hours=6), in seconds. -/
def cache_timeout : Nat := 21600

/-- Result of one fetch_and_parse_code call: the returned article map, the
cache after the call, and the URLs for which fetch_page_content was
invoked (each entry is one underlying fetch-and-parse attempt), in
order. -/
structure FPOut where
  articles : ArticleMap
  cache : Cache
  fetched : List Str

/-- The candidate-URL loop of fetch_and_parse_code.  The parameter net
maps a URL to the composite outcome of fetch_page_content followed by
parse_articles: none when the fetch returned None, some m for a fetched
page whose parse produced m (possibly empty).  The first URL producing a
non-empty map is stored in the cache under the code id with the current
timestamp and returned; otherwise the loop falls through to the next URL,
and to an empty map with the cache unchanged when the candidates are
exhausted. -/
def try_urls (net : Str → Option ArticleMap) (now : Nat) (cache : Cache)
    (id : Str) : List Str → FPOut
  | [] => ⟨[], cache, []⟩
  | u :: us =>
      match net u with
      | some arts =>
          if arts ≠ [] then
            ⟨arts, fun k => if k = id then some (now, arts) else cache k, [u]⟩
          else
            let r := try_urls net now cache id us
            ⟨r.articles, r.cache, u :: r.fetched⟩
      | none =>
          let r := try_urls net now cache id us
          ⟨r.articles, r.cache, u :: r.fetched⟩

/-- Model of fetch_and_parse_code: if the cache holds an entry for the
code id whose age is below cache_timeout, return it with no fetching;
otherwise run the candidate-URL loop over [print_url, url].  (With natural
subtraction, a timestamp in the future gives age 0, fresh — matching the
negative-timedelta comparison of the source.) -/
def fetch_and_parse_code (net : Str → Option ArticleMap) (now : Nat)
    (cache : Cache) (code : CodeData) : FPOut :=
  match cache code.id with
  | some (ts, arts) =>
      if now - ts < cache_timeout then ⟨arts, cache, []⟩
      else try_urls net now cache code.id [code.print_url, code.url]
  | none => try_urls net now cache code.id [code.print_url, code.url]

/-! ## Keyword search (search_by_keyword) -/

/-- Substring containment: models the Python expression w in s on
strings. -/
def hasSubstr (w : Str) : Str → Bool
  | [] => w.isEmpty
  | c :: cs => w.isPrefixOf (c :: cs) || hasSubstr w cs

/-- The regex metacharacters of the Python re module. -/
def reMeta : List Char :=
  ['\\', '.', '^', '$', '*', '+', '?', '{', '}', '[', ']', '(', ')', '|']

/-- A word is regex-literal when it contains no metacharacter, so that
re.compile treats it as a literal string. -/
def litWord (w : Str) : Bool := w.all (fun c => !(reMeta.contains c))

/-- One token of a compiled search-term pattern: a literal character or
the any-character dot. -/
inductive RTok where
  | lit : Char → RTok
  | dot : RTok
deriving DecidableEq

/-- Compilation of one character of a search term.  Models re.compile on
the pattern built by search_by_keyword from the term: a metacharacter-free
character is a case-insensitive literal, the dot matches any character but
newline, and any other metacharacter is mapped to the error outcome.  This
is exact on every input evaluated in this file: metacharacter-free words,
words made of literals and dots, and words containing an opening
parenthesis (for which re.compile raises re.error, unterminated group).
Other metacharacter combinations, which Python may compile with
non-literal semantics, are conservatively sent to the error case and are
exercised by no theorem below. -/
def compileTok (c : Char) : Except Unit RTok :=
  if c = '.' then Except.ok RTok.dot
  else if reMeta.contains c then Except.error ()
  else Except.ok (RTok.lit c)

/-- Compilation of a whole search term, per character; any character
failing to compile fails the whole term. -/
def compileWord : Str → Except Unit (List RTok)
  | [] => Except.ok []
  | c :: cs =>
      match compileTok c, compileWord cs with
      | Except.ok t, Except.ok ts => Except.ok (t :: ts)
      | _, _ => Except.error ()

/-- Whether one pattern token matches one character: literals match up to
lowerChar on both sides (re.IGNORECASE), the dot matches everything except
a newline. -/
def tokMatch : RTok → Char → Bool
  | RTok.lit a, c => lowerChar c = lowerChar a
  | RTok.dot, c => c ≠ '\n'

/-- Whether the compiled pattern matches at the start of s. -/
def matchesAt (ts : List RTok) (s : Str) : Bool :=
  decide (ts.length ≤ s.length) &&
    (ts.zip s).all (fun p => tokMatch p.1 p.2)

/-- Model of pattern.sub applied by search_by_keyword: scan s left to
right; at each position where the compiled term matches, wrap the matched
original-case text in asterisks (the replacement template around group 1)
and continue after it (non-overlapping matches); otherwise keep the
character.  The source only ever substitutes with non-empty terms, so the
empty pattern keeps s unchanged here. -/
def subTokF (ts : List RTok) : Nat → Str → Str
  | 0, s => s
  | _ + 1, [] => []
  | fuel + 1, c :: cs =>
      if ts ≠ [] ∧ matchesAt ts (c :: cs) = true then
        '*' :: ((c :: cs).take ts.length ++
          '*' :: subTokF ts fuel ((c :: cs).drop ts.length))
      else c :: subTokF ts fuel cs

/-- Substitution entry point: every step consumes at least one character
of s (a match consumes the non-empty pattern length), so fuel equal to the
length of s is never exhausted and the fuel-out case is unreachable. -/
def subTok (ts : List RTok) (s : Str) : Str := subTokF ts s.length s

/-- The result line built for one matching article:
a bookmark emoji, the word Article, the identifier, and the highlighted
text. -/
def fmtResult (num fc : Str) : Str :=
  ("📑 Стаття ").toList ++ num ++ (":\n\n").toList ++ fc ++ ['\n']

/-- The inner highlighting loop of search_by_keyword: compile each term
and substitute over the accumulated content; a compile error aborts the
whole search (the exception propagates). -/
def renderContent (ws : List Str) (content : Str) : Except Unit Str :=
  ws.foldlM (fun acc w => (compileWord w).map (fun ts => subTok ts acc)) content

/-- Model of search_by_keyword: lower-case the phrase, split it on
whitespace, keep every article whose lowered text contains every term as a
substring (in map order), and render each kept article with the terms
wrapped in asterisks; a re.error while compiling a term for a kept article
escapes as the error outcome. -/
def search_by_keyword (articles : ArticleMap) (keyword : Str) :
    Except Unit (List Str) :=
  let search_words := splitWs (lowerStr keyword)
  articles.foldlM
    (fun results p =>
      if search_words.all (fun w => hasSubstr w (lowerStr p.2)) then
        (renderContent search_words p.2).map
          (fun fc => results ++ [fmtResult p.1 fc])
      else pure results)
    []

/-- Literal highlighting: the effect of the substitution loop when every
term is regex-literal (each term compiles to its own characters as literal
tokens). -/
def renderLit (ws : List Str) (content : Str) : Str :=
  ws.foldl (fun acc w => subTok (w.map RTok.lit) acc) content

/-! ## Article parser (parse_articles) -/

/-- Drop a literal expected text from the front of s, or fail. -/
def dropLit : Str → Str → Option Str
  | [], s => some s
  | _ :: _, [] => none
  | c :: cs, x :: xs => if x = c then dropLit cs xs else none

/-- Whether c is in the character class of the header pattern suffix: the
lowercase Cyrillic range U+0430..U+044F or the Ukrainian i U+0456. -/
def isCyrSuffix (c : Char) : Bool :=
  (0x430 ≤ c.toNat && c.toNat ≤ 0x44f) || c.toNat = 0x456

/-- Model of the article-header test of parse_articles: re.match with the
pattern matching, at the start of the text, the literal word Стаття, then
one or more whitespace characters, then one or more digits, then
optionally either one lowercase Cyrillic letter or a hyphen followed by
one or more digits; returns group 1 (digits plus optional suffix), or none
when the text does not start with such a header.  The alternation prefers
the single letter, and the hyphen arm is itself optional, exactly as in
the pattern. -/
def header_num (t : Str) : Option Str :=
  match dropLit (("Стаття").toList) t with
  | none => none
  | some r =>
      if r.takeWhile isSpaceChar = [] then none
      else
        let r1 := r.dropWhile isSpaceChar
        let ds := r1.takeWhile pyDigit
        if ds = [] then none
        else
          match r1.dropWhile pyDigit with
          | [] => some ds
          | c :: rest =>
              if isCyrSuffix c then some (ds ++ [c])
              else if c = '-' then
                let ds2 := rest.takeWhile pyDigit
                if ds2 = [] then some ds else some (ds ++ '-' :: ds2)
              else some ds

/-- Python dict assignment on an insertion-ordered association list: an
existing key keeps its position and gets the new value, a new key is
appended at the end. -/
def dictSet (m : ArticleMap) (k v : Str) : ArticleMap :=
  if m.any (fun p => p.1 = k) then
    m.map (fun p => if p.1 = k then (k, v) else p)
  else m ++ [(k, v)]

/-- Commit the article being accumulated, as the source does both when a
new header starts and at the end of the walk: only when an identifier is
set, non-empty (Python string truthiness), and some text has accumulated;
the text is the newline-join of the accumulated element texts. -/
def commitArticle (m : ArticleMap) (cur : Option Str) (acc : List Str) :
    ArticleMap :=
  match cur with
  | some k => if k ≠ [] ∧ acc ≠ [] then dictSet m k (List.intercalate ['\n'] acc) else m
  | none => m

/-- The element walk of parse_articles.  Each element is modelled by the
text of its single text node, so get_text(strip=True) is trim; elements
whose stripped text is empty are skipped; a header starts a new article
(committing the previous one); other text is appended to the current
article when one is open and discarded otherwise; the final article is
committed at the end. -/
def parse_go : List Str → Option Str → List Str → ArticleMap → ArticleMap
  | [], cur, acc, m => commitArticle m cur acc
  | e :: es, cur, acc, m =>
      let text := trim e
      if text = [] then parse_go es cur acc m
      else
        match header_num text with
        | some k => parse_go es (some k) [text] (commitArticle m cur acc)
        | none =>
            match cur with
            | some _ => parse_go es cur (acc ++ [text]) m
            | none => parse_go es none acc m

/-- Model of parse_articles: none models the case where no content
container was found (or the markup failed to parse), giving the empty
map; some es is the document-order sequence of element texts inside the
found container. -/
def parse_articles (elements : Option (List Str)) : ArticleMap :=
  match elements with
  | none => []
  | some es => parse_go es none [] []

/-- Modelled from the spec: the post-processing step the spec describes
for committed article text, collapsing runs of whitespace to single
spaces and trimming the ends.  The source has no such step; this
definition exists only to be compared with what parse_articles actually
stores. -/
def collapse_ws (s : Str) : Str := List.intercalate [' '] (splitWs s)

/-! ## Number lookup (the variation loop of handle_article_number) -/

/-- Dictionary lookup on the article map. -/
def lookupA (m : ArticleMap) (k : Str) : Option Str :=
  match m.find? (fun p => p.1 = k) with
  | some p => some p.2
  | none => none

/-- The variation list built by handle_article_number: the number itself,
then the number with -1, with the Cyrillic letter а, and with the Cyrillic
letter б appended. -/
def variations (n : Str) : List Str :=
  [n, n ++ ('-' :: ['1']), n ++ ['а'], n ++ ['б']]

/-- First variation present in the map, in list order. -/
def firstHit (m : ArticleMap) : List Str → Option Str
  | [] => none
  | v :: vs =>
      match lookupA m v with
      | some t => some t
      | none => firstHit m vs

/-- Model of the variation loop of handle_article_number: try the exact
number, then the fixed variant suffixes, returning the text of the first
key present, or none. -/
def lookup_by_number (m : ArticleMap) (n : Str) : Option Str :=
  firstHit m (variations n)

/-! ## Long-result chunking (the delivery loop of handle_keyword) -/

/-- chunk_size = 4000 in handle_keyword. -/
def chunk_size : Nat := 4000

/-- Sum of the lengths of the results in a chunk (the running
current_length counter of the source). -/
def sumLens (rs : List Str) : Nat := (rs.map List.length).sum

/-- The delivery loop of handle_keyword, with the sends collected: when
the running length plus the next result would exceed chunk_size, the
current chunk is emitted (even when empty, as happens when the very first
result is oversized) and the result starts a fresh chunk; otherwise the
result joins the current chunk; a non-empty final chunk is emitted at the
end. -/
def chunkLoop : List Str → List Str → Nat → List (List Str)
  | [], cur, _ => if cur ≠ [] then [cur] else []
  | r :: rs, cur, len =>
      if len + r.length > chunk_size then cur :: chunkLoop rs [r] r.length
      else chunkLoop rs (cur ++ [r]) (len + r.length)

/-- The chunks of result lists sent by handle_keyword, in order; each sent
message is the newline-join of one chunk. -/
def chunkResults (results : List Str) : List (List Str) :=
  chunkLoop results [] 0

/-- The messages actually sent: each chunk joined with newlines. -/
def chunkMessages (results : List Str) : List Str :=
  (chunkResults results).map (List.intercalate ['\n'])

/-! ## Wizard step handlers (input gates and orchestration) -/

/-- The FSM states of DatabaseStates. -/
inductive DBState where
  | choosing_code
  | search_method
  | waiting_for_article_number
  | waiting_for_keyword
deriving DecidableEq

/-- What handle_article_number answers. -/
inductive NumReply where
  | reprompt
  | found : Str → NumReply
  | notFound
deriving DecidableEq

/-- Observable outcome of one handle_article_number step: the FSM state
afterwards, the cache afterwards, the URLs fetched, and the reply. -/
structure NumOut where
  st : DBState
  cache : Cache
  fetched : List Str
  reply : NumReply

/-- Model of handle_article_number: input failing the digit pattern is
re-prompted at once, before any fetch or parse, leaving the state at
waiting_for_article_number; otherwise the article map is resolved through
the cache, the variation loop runs, and the state advances to
choosing_code with the found text or a not-found reply. -/
def handle_article_number (net : Str → Option ArticleMap) (now : Nat)
    (cache : Cache) (code : CodeData) (text : Str) : NumOut :=
  if pyMatchNumber text = false then
    ⟨DBState.waiting_for_article_number, cache, [], NumReply.reprompt⟩
  else
    let o := fetch_and_parse_code net now cache code
    match lookup_by_number o.articles text with
    | some t => ⟨DBState.choosing_code, o.cache, o.fetched, NumReply.found t⟩
    | none => ⟨DBState.choosing_code, o.cache, o.fetched, NumReply.notFound⟩

/-- What handle_keyword answers. -/
inductive KwReply where
  | reprompt
  | sent : List Str → KwReply
  | nothingFound
  | errorMsg
deriving DecidableEq

/-- Observable outcome of one handle_keyword step. -/
structure KwOut where
  st : DBState
  cache : Cache
  fetched : List Str
  reply : KwReply

/-- Model of handle_keyword: input shorter than 3 characters is
re-prompted at once, before any fetch or parse, leaving the state at
waiting_for_keyword; otherwise the article map is resolved through the
cache and searched; a search exception is caught and answered with the
generic error message; non-empty results are sent in chunks; the state
advances to choosing_code in every non-re-prompt outcome. -/
def handle_keyword (net : Str → Option ArticleMap) (now : Nat)
    (cache : Cache) (code : CodeData) (text : Str) : KwOut :=
  if text.length < 3 then
    ⟨DBState.waiting_for_keyword, cache, [], KwReply.reprompt⟩
  else
    let o := fetch_and_parse_code net now cache code
    match search_by_keyword o.articles text with
    | Except.error _ => ⟨DBState.choosing_code, o.cache, o.fetched, KwReply.errorMsg⟩
    | Except.ok results =>
        if results = [] then
          ⟨DBState.choosing_code, o.cache, o.fetched, KwReply.nothingFound⟩
        else
          ⟨DBState.choosing_code, o.cache, o.fetched,
            KwReply.sent (chunkMessages results)⟩

/-- Modelled from the spec: the number-input pattern the spec states,
one or more ASCII digits spanning the whole input.  It exists to be
compared with the pattern the source actually applies (pyMatchNumber). -/
def matchesClaimNumber (t : Str) : Bool :=
  decide (t ≠ []) && t.all Char.isDigit

/-! ## Fixtures for concrete witnesses -/

/-- A concrete catalog entry used by witnesses. -/
def codeFix : CodeData := ⟨("435-15").toList, ("u").toList, ("p").toList⟩

/-- A concrete one-article map used by witnesses. -/
def artsFix : ArticleMap := [(("1").toList, ("Стаття 1. Текст").toList)]

/-- A network in which the print URL fetches and parses to artsFix. -/
def netFix : Str → Option ArticleMap :=
  fun u => if u = ("p").toList then some artsFix else none

/-- A network in which the print URL parses to an empty map and the
canonical URL fails to fetch. -/
def netDown : Str → Option ArticleMap :=
  fun u => if u = ("p").toList then some [] else none

/-- The empty cache. -/
def cacheEmpty : Cache := fun _ => none

/-- A cache holding a fresh entry for codeFix. -/
def cacheFresh : Cache :=
  fun k => if k = codeFix.id then some (0, artsFix) else none

/-! ## C1: cache freshness -/

/-- C1: a fresh cache entry (age below the 6-hour TTL) is returned as-is
with no fetch and no cache change; on a miss the first candidate URL is
fetched once and stored with the current timestamp; a second call within
the TTL window does no further fetch and returns the same map, so the two
calls perform exactly one underlying fetch-and-parse; a call after the TTL
has elapsed fetches anew and replaces the entry with the new
timestamp. -/
theorem c1_cache_freshness (net : Str → Option ArticleMap)
    (cacheF cacheM : Cache) (code : CodeData) (ts now now1 now2 now3 : Nat)
    (arts : ArticleMap)
    (hfresh : cacheF code.id = some (ts, arts))
    (hage : now - ts < cache_timeout)
    (hmiss : cacheM code.id = none)
    (hnet : net code.print_url = some arts) (hne : arts ≠ [])
    (hwin : now2 - now1 < cache_timeout)
    (hexp : cache_timeout ≤ now3 - now1) :
    fetch_and_parse_code net now cacheF code = ⟨arts, cacheF, []⟩ ∧
    (fetch_and_parse_code net now1 cacheM code).articles = arts ∧
    (fetch_and_parse_code net now1 cacheM code).fetched = [code.print_url] ∧
    (fetch_and_parse_code net now1 cacheM code).cache code.id
      = some (now1, arts) ∧
    fetch_and_parse_code net now2
        (fetch_and_parse_code net now1 cacheM code).cache code =
      ⟨arts, (fetch_and_parse_code net now1 cacheM code).cache, []⟩ ∧
    (fetch_and_parse_code net now3
        (fetch_and_parse_code net now1 cacheM code).cache code).fetched
      = [code.print_url] ∧
    (fetch_and_parse_code net now3
        (fetch_and_parse_code net now1 cacheM code).cache code).cache code.id
      = some (now3, arts) := by
  have h1 : fetch_and_parse_code net now cacheF code = ⟨arts, cacheF, []⟩ := by
    simp [fetch_and_parse_code, hfresh, hage]
  have h2 : fetch_and_parse_code net now1 cacheM code =
      ⟨arts, fun k => if k = code.id then some (now1, arts) else cacheM k,
        [code.print_url]⟩ := by
    simp [fetch_and_parse_code, hmiss, try_urls, hnet, hne]
  have h3 : fetch_and_parse_code net now2
      (fun k => if k = code.id then some (now1, arts) else cacheM k) code =
      ⟨arts, fun k => if k = code.id then some (now1, arts) else cacheM k,
        []⟩ := by
    simp [fetch_and_parse_code, hwin]
  have hstale : ¬ (now3 - now1 < cache_timeout) := by omega
  have h4f : (fetch_and_parse_code net now3
      (fun k => if k = code.id then some (now1, arts) else cacheM k)
      code).fetched = [code.print_url] := by
    simp [fetch_and_parse_code, hstale, try_urls, hnet, hne]
  have h4c : (fetch_and_parse_code net now3
      (fun k => if k = code.id then some (now1, arts) else cacheM k)
      code).cache code.id = some (now3, arts) := by
    simp [fetch_and_parse_code, hstale, try_urls, hnet, hne]
  refine ⟨h1, ?_, ?_, ?_, ?_, ?_, ?_⟩
  · rw [h2]
  · rw [h2]
  · rw [h2]; simp
  · rw [h2]; exact h3
  · rw [h2]; exact h4f
  · rw [h2]; exact h4c

/-- Witness for C1 at the concrete fixtures. -/
theorem c1_cache_freshness_witness :
    fetch_and_parse_code netFix 100 cacheFresh codeFix
      = ⟨artsFix, cacheFresh, []⟩ ∧
    (fetch_and_parse_code netFix 0 cacheEmpty codeFix).fetched
      = [codeFix.print_url] ∧
    fetch_and_parse_code netFix 21599
        (fetch_and_parse_code netFix 0 cacheEmpty codeFix).cache codeFix =
      ⟨artsFix, (fetch_and_parse_code netFix 0 cacheEmpty codeFix).cache, []⟩ ∧
    (fetch_and_parse_code netFix 21600
        (fetch_and_parse_code netFix 0 cacheEmpty codeFix).cache codeFix).cache
        codeFix.id = some (21600, artsFix) := by
  have h := c1_cache_freshness netFix cacheFresh cacheEmpty codeFix 0 100 0
    21599 21600 artsFix (by decide) (by decide) rfl (by decide) (by decide)
    (by decide) (by decide)
  exact ⟨h.1, h.2.2.1, h.2.2.2.2.1, h.2.2.2.2.2.2⟩

/-! ## C2: retry on HTTP 429 -/

/-- Responses giving HTTP 429 on the first attempt and 200 on the
second. -/
def resp429then200 : Nat → Option (Nat × Str) :=
  fun n => if n = 0 then some (429, []) else some (200, ("ok").toList)

/-- C2: on an HTTP 429 first response the code returns failure at once
with no retry — the 429 branch raises NameError because asyncio is never
imported, and the blanket except handler swallows it — while the retry
behaviour the claim (and the docstring of the function) describes would
sleep one base unit and succeed on the second attempt. -/
theorem c2_rate_limit_retry_missing :
    fetch_page_content resp429then200 0 = none ∧
    (fetch_page_retry resp429then200 0).1 = some (("ok").toList) ∧
    (fetch_page_retry resp429then200 0).2 = [1] :=
  ⟨rfl, rfl, rfl⟩

/-! ## C6: no cache entry on all-candidates failure -/

/-- C6: when every candidate URL yields a failed fetch or an empty parse
and the cache has no fresh entry for the code, the call returns the empty
map, both candidates are tried, and the cache is left pointwise unchanged
(no entry is stored); a subsequent call on the resulting cache state
fetches from scratch again rather than returning the prior empty
result. -/
theorem c6_no_cache_on_failure (net : Str → Option ArticleMap)
    (cache : Cache) (code : CodeData) (now now2 : Nat)
    (hnet : ∀ u ∈ [code.print_url, code.url], net u = none ∨ net u = some [])
    (hstale : cache code.id = none ∨
      ∃ ts arts, cache code.id = some (ts, arts) ∧ cache_timeout ≤ now - ts) :
    (fetch_and_parse_code net now cache code).articles = [] ∧
    (fetch_and_parse_code net now cache code).fetched
      = [code.print_url, code.url] ∧
    (∀ k, (fetch_and_parse_code net now cache code).cache k = cache k) ∧
    (cache code.id = none →
      (fetch_and_parse_code net now2
        (fetch_and_parse_code net now cache code).cache code).fetched
        = [code.print_url, code.url]) := by
  have hp := hnet code.print_url (by simp)
  have hu := hnet code.url (by simp)
  have htry : try_urls net now cache code.id [code.print_url, code.url]
      = ⟨[], cache, [code.print_url, code.url]⟩ := by
    rcases hp with hp | hp <;> rcases hu with hu | hu <;>
      simp [try_urls, hp, hu]
  have hmain : fetch_and_parse_code net now cache code
      = ⟨[], cache, [code.print_url, code.url]⟩ := by
    rcases hstale with hmiss | ⟨ts, arts, hsome, hts⟩
    · simp [fetch_and_parse_code, hmiss, htry]
    · have : ¬ (now - ts < cache_timeout) := by omega
      simp [fetch_and_parse_code, hsome, this, htry]
  refine ⟨by rw [hmain], by rw [hmain], by rw [hmain]; intro k; rfl, ?_⟩
  intro hmiss
  have htry2 : try_urls net now2 cache code.id [code.print_url, code.url]
      = ⟨[], cache, [code.print_url, code.url]⟩ := by
    rcases hp with hp | hp <;> rcases hu with hu | hu <;>
      simp [try_urls, hp, hu]
  rw [hmain]
  simp [fetch_and_parse_code, hmiss, htry2]

/-- Witness for C6 at the concrete fixtures: the print URL parses empty,
the canonical URL fails to fetch, the cache starts empty. -/
theorem c6_no_cache_on_failure_witness :
    (fetch_and_parse_code netDown 5 cacheEmpty codeFix).articles = [] ∧
    (fetch_and_parse_code netDown 5 cacheEmpty codeFix).fetched
      = [codeFix.print_url, codeFix.url] ∧
    (fetch_and_parse_code netDown 7
      (fetch_and_parse_code netDown 5 cacheEmpty codeFix).cache codeFix).fetched
      = [codeFix.print_url, codeFix.url] := by
  have h := c6_no_cache_on_failure netDown cacheEmpty codeFix 5 7
    (by intro u hu; fin_cases hu <;> simp [netDown, codeFix])
    (Or.inl rfl)
  exact ⟨h.1, h.2.1, h.2.2.2 rfl⟩

/-! ## C4: number lookup with variant fallback -/

/-- C4: for an all-digit number, the lookup tries the exact number first,
then the fixed variant suffixes -1, а, б appended to it, in that order,
and returns the text of the first key present (a variant hit is the map
entry itself, identical to a direct hit); it returns none exactly when
none of the variants is a key. -/
theorem c4_number_lookup (m : ArticleMap) (n : Str)
    (hn : n ≠ [] ∧ n.all Char.isDigit) :
    lookup_by_number m n =
      ((lookupA m n).or ((lookupA m (n ++ '-' :: ['1'])).or
        ((lookupA m (n ++ ['а'])).or (lookupA m (n ++ ['б']))))) ∧
    (lookup_by_number m n = none ↔
      ∀ v ∈ variations n, lookupA m v = none) := by
  rcases e1 : lookupA m n with _ | t1 <;>
    rcases e2 : lookupA m (n ++ '-' :: ['1']) with _ | t2 <;>
      rcases e3 : lookupA m (n ++ ['а']) with _ | t3 <;>
        rcases e4 : lookupA m (n ++ ['б']) with _ | t4 <;>
          simp [lookup_by_number, variations, firstHit, e1, e2, e3, e4,
            Option.or]

/-- Witness for C4: a map holding the key 5 only, looked up by 5 (direct
hit), and a map holding only the variant key 5-1, looked up by 5 (variant
hit returned identically). -/
theorem c4_number_lookup_witness :
    lookup_by_number [(("5").toList, ("текст").toList)] (("5").toList)
      = some (("текст").toList) ∧
    lookup_by_number [(("5-1").toList, ("вставка").toList)] (("5").toList)
      = some (("вставка").toList) := by
  have h1 := c4_number_lookup [(("5").toList, ("текст").toList)]
    (("5").toList) (by decide)
  have h2 := c4_number_lookup [(("5-1").toList, ("вставка").toList)]
    (("5").toList) (by decide)
  exact ⟨by rw [h1.1]; decide, by rw [h2.1]; decide⟩

/-! ## C5: long-result chunking -/

/-- The chunks flatten back to the result list: no result is split and
order is preserved. -/
theorem chunkLoop_flatten (rs : List Str) : ∀ (cur : List Str) (len : Nat),
    (chunkLoop rs cur len).flatten = cur ++ rs := by
  induction rs with
  | nil =>
      intro cur len
      by_cases h : cur = [] <;> simp [chunkLoop, h]
  | cons r rs ih =>
      intro cur len
      by_cases h : len + r.length > chunk_size <;> simp [chunkLoop, h, ih]

/-- Every emitted chunk either holds at most one result or has total
result length at most chunk_size. -/
theorem chunkLoop_chunks (rs : List Str) : ∀ (cur : List Str) (len : Nat),
    len = sumLens cur → (cur.length ≤ 1 ∨ sumLens cur ≤ chunk_size) →
    ∀ chunk ∈ chunkLoop rs cur len,
      chunk.length ≤ 1 ∨ sumLens chunk ≤ chunk_size := by
  induction rs with
  | nil =>
      intro cur len _ hc chunk hm
      by_cases h : cur = []
      · simp [chunkLoop, h] at hm
      · simp [chunkLoop, h] at hm
        exact hm ▸ hc
  | cons r rs ih =>
      intro cur len hl hc chunk hm
      by_cases h : len + r.length > chunk_size
      · simp [chunkLoop, h] at hm
        rcases hm with rfl | hm
        · exact hc
        · exact ih [r] r.length (by simp [sumLens]) (Or.inl (by simp)) chunk hm
      · simp [chunkLoop, h] at hm
        refine ih (cur ++ [r]) (len + r.length) ?_ ?_ chunk hm
        · simp [sumLens, hl]
        · right
          have hle : len + r.length ≤ chunk_size := not_lt.mp h
          have : sumLens (cur ++ [r]) = sumLens cur + r.length := by
            simp [sumLens]
          omega

/-- Total length distributes over chunk flattening. -/
theorem sumLens_flatten (l : List (List Str)) :
    sumLens l.flatten = (l.map sumLens).sum := by
  induction l with
  | nil => simp [sumLens]
  | cons a l ih => simp [sumLens, List.map_append, List.sum_append] at *
                   simp [ih]

/-- C5 (amended): the delivery loop never splits a result across chunks
and preserves order — the chunks flatten back to the exact result list —
and every chunk holding two or more results keeps its total result length
within chunk_size (4000); when in addition every individual result is at
most chunk_size long, results totalling more than twice chunk_size (for
example 9000 characters) are delivered in at least 3 chunks. -/
theorem c5_chunk_delivery (results : List Str) :
    (chunkResults results).flatten = results ∧
    (∀ chunk ∈ chunkResults results,
      chunk.length ≤ 1 ∨ sumLens chunk ≤ chunk_size) ∧
    ((∀ r ∈ results, r.length ≤ chunk_size) →
      2 * chunk_size < sumLens results →
      3 ≤ (chunkResults results).length) := by
  have hf : (chunkResults results).flatten = results := by
    simpa using chunkLoop_flatten results [] 0
  have hch : ∀ chunk ∈ chunkResults results,
      chunk.length ≤ 1 ∨ sumLens chunk ≤ chunk_size :=
    chunkLoop_chunks results [] 0 (by simp [sumLens]) (Or.inl (by simp))
  refine ⟨hf, hch, ?_⟩
  intro hr hbig
  have hall : ∀ chunk ∈ chunkResults results, sumLens chunk ≤ chunk_size := by
    intro chunk hm
    rcases hch chunk hm with h1 | h2
    · match chunk, h1 with
      | [], _ => simp [sumLens, chunk_size]
      | [a], _ =>
          have ha : a ∈ results := by
            rw [← hf]
            exact List.mem_flatten.mpr ⟨[a], hm, by simp⟩
          simpa [sumLens] using hr a ha
    · exact h2
  have hsum : sumLens results = ((chunkResults results).map sumLens).sum := by
    conv_lhs => rw [← hf]
    exact sumLens_flatten _
  have hle : ((chunkResults results).map sumLens).sum ≤
      (chunkResults results).length * chunk_size := by
    have := List.sum_le_card_nsmul ((chunkResults results).map sumLens)
      chunk_size (by
        intro x hx
        rcases List.mem_map.mp hx with ⟨chunk, hmc, rfl⟩
        exact hall chunk hmc)
    simpa [smul_eq_mul] using this
  simp only [chunk_size] at hle hbig
  omega

/-- Counterexample for C5 as stated: a single 9000-character result
(concatenated length 9000, above the 4096 ceiling) is delivered as an
empty first message followed by one 9000-character message: only 2
chunks, one of them far above 4096 characters. -/
theorem c5_counterexample :
    chunkMessages [List.replicate 9000 'a']
      = [[], List.replicate 9000 'a'] ∧
    (chunkMessages [List.replicate 9000 'a']).length = 2 ∧
    4096 < (List.replicate 9000 'a').length := by
  have h : chunkResults [List.replicate 9000 'a']
      = [[], [List.replicate 9000 'a']] := by
    simp only [chunkResults, chunkLoop, chunk_size, List.length_replicate]
    norm_num
  refine ⟨?_, ?_, by rw [List.length_replicate]; norm_num⟩
  · simp only [chunkMessages, h, List.map_cons, List.map_nil]
    generalize List.replicate 9000 'a' = r
    simp [List.intercalate]
  · simp only [chunkMessages, h, List.map_cons, List.map_nil]
    generalize List.intercalate ['\n'] [List.replicate 9000 'a'] = r
    simp

/-- Witness for C5 at three 3000-character results: flattening reproduces
them and at least 3 chunks are produced. -/
theorem c5_chunk_delivery_witness :
    (chunkResults [List.replicate 3000 'a', List.replicate 3000 'b',
        List.replicate 3000 'c']).flatten
      = [List.replicate 3000 'a', List.replicate 3000 'b',
        List.replicate 3000 'c'] ∧
    3 ≤ (chunkResults [List.replicate 3000 'a', List.replicate 3000 'b',
        List.replicate 3000 'c']).length := by
  have h := c5_chunk_delivery [List.replicate 3000 'a',
    List.replicate 3000 'b', List.replicate 3000 'c']
  refine ⟨h.1, h.2.2 ?_ ?_⟩
  · intro r hr
    simp only [List.mem_cons, List.not_mem_nil, or_false] at hr
    rcases hr with rfl | rfl | rfl <;>
      · simp only [List.length_replicate, chunk_size]
        norm_num
  · simp only [sumLens, List.map_cons, List.map_nil, List.length_replicate,
      List.sum_cons, List.sum_nil, chunk_size]
    norm_num

/-! ## C3: conjunctive keyword search with highlighting -/

/-- A metacharacter-free word compiles to its characters as literal
tokens. -/
theorem compileWord_lit (w : Str) (h : litWord w = true) :
    compileWord w = Except.ok (w.map RTok.lit) := by
  induction w with
  | nil => rfl
  | cons c w ih =>
      simp only [litWord, List.all_cons, Bool.and_eq_true,
        Bool.not_eq_true'] at h
      obtain ⟨hc, hw⟩ := h
      have hdot : ¬ (c = '.') := by
        intro e
        subst e
        simp [reMeta] at hc
      have ihw : compileWord w = Except.ok (w.map RTok.lit) := ih hw
      have hmem : ¬ (c ∈ reMeta) := by simpa using hc
      simp [compileWord, compileTok, hdot, hc, hmem, ihw]

/-- Bind of a mapped ok value reduces to the continuation. -/
theorem bind_map_ok {α β γ : Type} (g : α → β) (a : α)
    (f : β → Except Unit γ) :
    ((Except.map g (Except.ok a) : Except Unit β) >>= f) = f (g a) := rfl

/-- Bind of a pure value reduces to the continuation. -/
theorem bind_pure_exc {α β : Type} (a : α) (f : α → Except Unit β) :
    ((pure a : Except Unit α) >>= f) = f a := rfl

/-- With metacharacter-free terms the highlighting loop never raises and
computes the literal substitution fold. -/
theorem renderContent_lit (ws : List Str)
    (h : ∀ w ∈ ws, litWord w = true) :
    ∀ content, renderContent ws content
      = Except.ok (renderLit ws content) := by
  induction ws with
  | nil => intro content; rfl
  | cons w ws ih =>
      intro content
      have hw := h w (by simp)
      have hws : ∀ x ∈ ws, litWord x = true := fun x hx => h x (by simp [hx])
      simp only [renderContent, List.foldlM_cons]
      rw [compileWord_lit w hw, bind_map_ok]
      have hrec := ih hws (subTok (w.map RTok.lit) content)
      simp only [renderContent] at hrec
      rw [hrec]
      simp [renderLit]

/-- The selection fold of search_by_keyword, with metacharacter-free
terms, accumulates exactly the filtered and rendered articles. -/
theorem search_go_lit (ws : List Str) (hlit : ∀ w ∈ ws, litWord w = true)
    (articles : ArticleMap) : ∀ acc : List Str,
    articles.foldlM
      (fun results p =>
        if ws.all (fun w => hasSubstr w (lowerStr p.2)) then
          (renderContent ws p.2).map (fun fc => results ++ [fmtResult p.1 fc])
        else pure results) acc
    = Except.ok (acc ++
        (articles.filter
            (fun p => ws.all (fun w => hasSubstr w (lowerStr p.2)))).map
          (fun p => fmtResult p.1 (renderLit ws p.2))) := by
  induction articles with
  | nil =>
      intro acc
      simp only [List.foldlM_nil, List.filter_nil, List.map_nil,
        List.append_nil]
      rfl
  | cons p ps ih =>
      intro acc
      simp only [List.foldlM_cons]
      by_cases e : (ws.all (fun w => hasSubstr w (lowerStr p.2))) = true
      · rw [if_pos e, renderContent_lit ws hlit p.2, bind_map_ok,
          ih (acc ++ [fmtResult p.1 (renderLit ws p.2)])]
        simp [List.filter_cons, e, List.append_assoc]
      · rw [if_neg e, bind_pure_exc, ih acc]
        simp [List.filter_cons, e]

/-- C3 (amended): for a phrase all of whose whitespace-split terms are
free of regex metacharacters, search_by_keyword lower-cases the phrase,
splits it into terms, and returns (without raising) exactly the articles
whose lowered text contains every term as a substring, in map (document)
order, each rendered with every term occurrence wrapped in asterisks by
the sequential case-insensitive substitution. -/
theorem c3_keyword_search (articles : ArticleMap) (kw : Str)
    (h : ∀ w ∈ splitWs (lowerStr kw), litWord w = true) :
    search_by_keyword articles kw =
      Except.ok ((articles.filter (fun p =>
          (splitWs (lowerStr kw)).all
            (fun w => hasSubstr w (lowerStr p.2)))).map
        (fun p => fmtResult p.1 (renderLit (splitWs (lowerStr kw)) p.2))) := by
  have hgo := search_go_lit (splitWs (lowerStr kw)) h articles []
  simpa [search_by_keyword] using hgo

/-- Counterexample for C3 as stated over every phrase: a phrase consisting
of opening parentheses, searched over a map whose article contains it,
makes search_by_keyword raise (re.error while compiling the term) instead
of returning a result list. -/
theorem c3_counterexample :
    search_by_keyword [(("1").toList, ("x (((y").toList)]
      (("(((").toList) = Except.error () := rfl

/-- Witness for C3 at the vectors of the spec: searching право освіту over
the two-article map returns only article 1, highlighted; searching право
returns both articles in document order. -/
theorem c3_keyword_search_witness :
    search_by_keyword [(("1").toList, ("право на освіту").toList),
        (("2").toList, ("право на працю").toList)]
      (("право освіту").toList)
      = Except.ok [fmtResult (("1").toList)
          (("*право* на *освіту*").toList)] ∧
    search_by_keyword [(("1").toList, ("право на освіту").toList),
        (("2").toList, ("право на працю").toList)]
      (("право").toList)
      = Except.ok [fmtResult (("1").toList) (("*право* на освіту").toList),
          fmtResult (("2").toList) (("*право* на працю").toList)] := by
  constructor
  · rw [c3_keyword_search _ _ (by decide)]
    rfl
  · rw [c3_keyword_search _ _ (by decide)]
    rfl

/-! ## C10: regex metacharacters in search terms -/

/-- C10: search_by_keyword is not total over phrases — a lone opening
parenthesis as the phrase, over a map whose article contains it, raises
instead of returning results; and the dot term, over an article containing
a literal dot, wraps every character in emphasis markers, so the markers
wrap text (the letter a) that is not the literal search term. -/
theorem c10_regex_unescaped :
    search_by_keyword [(("1").toList, ("a(b").toList)] (("(").toList)
      = Except.error () ∧
    search_by_keyword [(("1").toList, ("a.b").toList)] ((".").toList)
      = Except.ok [fmtResult (("1").toList) (("*a**.**b*").toList)] ∧
    ("a").toList ≠ (".").toList :=
  ⟨rfl, rfl, by decide⟩

/-! ## C8: input gates of the wizard steps -/

/-- C8 (amended): number input is accepted — the step advances to
choosing_code — exactly when it matches the digit pattern the source
applies (Python \d+, Unicode digits, dollar also matching before one
final newline); rejected input is re-prompted with no fetch, no cache
change, and the step left at waiting_for_article_number; keyword input is
accepted exactly when it has at least 3 characters, and shorter input is
re-prompted with no fetch, no cache change, and the step left at
waiting_for_keyword. -/
theorem c8_input_gates (net : Str → Option ArticleMap) (now : Nat)
    (cache : Cache) (code : CodeData) (t : Str) :
    ((handle_article_number net now cache code t).st = DBState.choosing_code
      ↔ pyMatchNumber t = true) ∧
    (pyMatchNumber t = false →
      handle_article_number net now cache code t =
        ⟨DBState.waiting_for_article_number, cache, [], NumReply.reprompt⟩) ∧
    ((handle_keyword net now cache code t).st = DBState.choosing_code
      ↔ 3 ≤ t.length) ∧
    (t.length < 3 →
      handle_keyword net now cache code t =
        ⟨DBState.waiting_for_keyword, cache, [], KwReply.reprompt⟩) := by
  refine ⟨?_, ?_, ?_, ?_⟩
  · cases hb : pyMatchNumber t
    · simp [handle_article_number, hb]
    · cases e : lookup_by_number
          (fetch_and_parse_code net now cache code).articles t <;>
        simp [handle_article_number, hb, e]
  · intro hf
    simp [handle_article_number, hf]
  · by_cases hl : t.length < 3
    · simp [handle_keyword, hl]
    · cases e : search_by_keyword
          (fetch_and_parse_code net now cache code).articles t with
      | error err => simp [handle_keyword, hl, e]; omega
      | ok results =>
          by_cases hr : results = [] <;>
            · simp [handle_keyword, hl, e, hr]
              omega
  · intro hlt
    simp [handle_keyword, hlt]

/-- Counterexample for C8 as stated: the Arabic-Indic digit three is
accepted by the gate of the source (Python \d matches it) and triggers a
fetch and a step advance, although it does not match the ASCII pattern of
the claim. -/
theorem c8_counterexample :
    pyMatchNumber (("٣").toList) = true ∧
    matchesClaimNumber (("٣").toList) = false ∧
    (handle_article_number netFix 0 cacheEmpty codeFix
      (("٣").toList)).fetched = [codeFix.print_url] ∧
    (handle_article_number netFix 0 cacheEmpty codeFix (("٣").toList)).st
      = DBState.choosing_code :=
  ⟨by decide, by decide, by decide, by decide⟩

/-- Witness for C8: a non-digit number input and a 2-character keyword are
re-prompted without fetching, and a digit input advances the step. -/
theorem c8_input_gates_witness :
    handle_article_number netFix 0 cacheEmpty codeFix (("1a").toList)
      = ⟨DBState.waiting_for_article_number, cacheEmpty, [],
          NumReply.reprompt⟩ ∧
    handle_keyword netFix 0 cacheEmpty codeFix (("пр").toList)
      = ⟨DBState.waiting_for_keyword, cacheEmpty, [], KwReply.reprompt⟩ ∧
    (handle_article_number netFix 0 cacheEmpty codeFix (("1").toList)).st
      = DBState.choosing_code := by
  have h1 := c8_input_gates netFix 0 cacheEmpty codeFix (("1a").toList)
  have h2 := c8_input_gates netFix 0 cacheEmpty codeFix (("пр").toList)
  have h3 := c8_input_gates netFix 0 cacheEmpty codeFix (("1").toList)
  exact ⟨h1.2.1 (by decide), h2.2.2.2 (by decide), h3.1.mpr (by decide)⟩

/-! ## Parser lemmas shared by the parse invariants -/

/-- A committed article text: the newline-join of a non-empty list of
parts, each the non-empty stripped text of one element. -/
def GoodText (v : Str) : Prop :=
  ∃ parts : List Str, parts ≠ [] ∧
    (∀ p ∈ parts, (∃ e, p = trim e) ∧ p ≠ []) ∧
    v = List.intercalate ['\n'] parts

/-- The head of a whitespace-dropWhile is not whitespace. -/
theorem head_dropWhile_not_space (l : Str) :
    ∀ c, (l.dropWhile isSpaceChar).head? = some c → isSpaceChar c = false := by
  induction l with
  | nil => intro c h; simp at h
  | cons a l ih =>
      intro c h
      rw [List.dropWhile_cons] at h
      by_cases ha : isSpaceChar a = true
      · rw [if_pos ha] at h
        exact ih c h
      · rw [if_neg ha] at h
        simp only [List.head?_cons, Option.some.injEq] at h
        subst h
        simpa using ha

/-- Stripped text does not start with whitespace. -/
theorem trim_head_not_space (s : Str) (c : Char)
    (h : (trim s).head? = some c) : isSpaceChar c = false := by
  have hpre : trim s <+: s.dropWhile isSpaceChar := by
    have hsuf : (s.dropWhile isSpaceChar).reverse.dropWhile isSpaceChar
        <:+ (s.dropWhile isSpaceChar).reverse := List.dropWhile_suffix _
    have hp := List.reverse_prefix.mpr hsuf
    simpa [trim] using hp
  obtain ⟨t, ht⟩ := hpre
  have hh : (s.dropWhile isSpaceChar).head? = some c := by
    rw [← ht]
    cases e : trim s with
    | nil => rw [e] at h; simp at h
    | cons a l =>
        rw [e] at h
        simp only [List.head?_cons, Option.some.injEq] at h
        simp [h]
  exact head_dropWhile_not_space s c hh

/-- Stripped text does not end with whitespace. -/
theorem trim_getLast_not_space (s : Str) (c : Char)
    (h : (trim s).getLast? = some c) : isSpaceChar c = false := by
  unfold trim at h
  rw [List.getLast?_reverse] at h
  exact head_dropWhile_not_space _ c h

/-- The head of a newline-join of non-empty parts is the head of some
part. -/
theorem intercalate_head_mem (parts : List Str)
    (hall : ∀ p ∈ parts, p ≠ []) (c : Char)
    (h : (List.intercalate ['\n'] parts).head? = some c) :
    ∃ p ∈ parts, p.head? = some c := by
  cases parts with
  | nil => simp [List.intercalate] at h
  | cons p1 rest =>
      refine ⟨p1, by simp, ?_⟩
      have h1 : p1 ≠ [] := hall p1 (by simp)
      cases rest with
      | nil =>
          simpa [List.intercalate] using h
      | cons r rs =>
          rw [show List.intercalate ['\n'] (p1 :: r :: rs)
              = p1 ++ ('\n' :: List.intercalate ['\n'] (r :: rs)) by
            simp [List.intercalate, List.intersperse]] at h
          rw [List.head?_append] at h
          cases e : p1.head? with
          | none => exact absurd (List.head?_eq_none_iff.mp e) h1
          | some a => rw [e] at h; simpa [e] using h

/-- The last element of a newline-join of non-empty parts is the last
element of some part. -/
theorem intercalate_getLast_mem (parts : List Str)
    (hall : ∀ p ∈ parts, p ≠ []) (c : Char)
    (h : (List.intercalate ['\n'] parts).getLast? = some c) :
    ∃ p ∈ parts, p.getLast? = some c := by
  induction parts with
  | nil => simp [List.intercalate] at h
  | cons p1 rest ih =>
      cases rest with
      | nil =>
          exact ⟨p1, by simp, by simpa [List.intercalate] using h⟩
      | cons r rs =>
          rw [show List.intercalate ['\n'] (p1 :: r :: rs)
              = p1 ++ ('\n' :: List.intercalate ['\n'] (r :: rs)) by
            simp [List.intercalate, List.intersperse]] at h
          rw [List.getLast?_append] at h
          have hr : r ≠ [] := hall r (by simp)
          have hne : List.intercalate ['\n'] (r :: rs) ≠ [] := by
            intro e
            have hh : (List.intercalate ['\n'] (r :: rs)).head? = none := by
              rw [e]; rfl
            cases rr : r with
            | nil => exact hr rr
            | cons a as =>
                rw [show List.intercalate ['\n'] (r :: rs)
                    = r ++ if rs = [] then []
                        else '\n' :: List.intercalate ['\n'] rs by
                  cases rs <;> simp [List.intercalate, List.intersperse]]
                  at hh
                rw [List.head?_append, rr] at hh
                simp at hh
          have hlast : (('\n' :: List.intercalate ['\n'] (r :: rs))).getLast?
              = some c := by
            cases e2 : ('\n' :: List.intercalate ['\n'] (r :: rs)).getLast? with
            | none => simp at e2
            | some a =>
                rw [e2] at h
                simpa [e2] using h
          have hlast2 : (List.intercalate ['\n'] (r :: rs)).getLast?
              = some c := by
            rw [List.getLast?_cons] at hlast
            cases e3 : (List.intercalate ['\n'] (r :: rs)).getLast? with
            | none =>
                exact absurd (List.getLast?_eq_none_iff.mp e3) hne
            | some a => rw [e3] at hlast; simpa [e3] using hlast
          obtain ⟨p, hp, hpc⟩ := ih (fun p hp => hall p (by simp [hp])) hlast2
          exact ⟨p, by simp [hp], hpc⟩

/-- A good text is non-empty. -/
theorem goodText_ne_nil (v : Str) (h : GoodText v) : v ≠ [] := by
  obtain ⟨parts, hne, hall, rfl⟩ := h
  cases parts with
  | nil => exact absurd rfl hne
  | cons p1 rest =>
      have h1 : p1 ≠ [] := (hall p1 (by simp)).2
      rw [show List.intercalate ['\n'] (p1 :: rest)
          = p1 ++ if rest = [] then []
              else '\n' :: List.intercalate ['\n'] rest by
        cases rest <;> simp [List.intercalate, List.intersperse]]
      intro e
      exact h1 (List.append_eq_nil.mp e).1

/-- Membership after a dict assignment: the new pair or an old one. -/
theorem dictSet_mem (m : ArticleMap) (k v : Str) :
    ∀ q ∈ dictSet m k v, q = (k, v) ∨ q ∈ m := by
  intro q hq
  unfold dictSet at hq
  by_cases ha : m.any (fun p => p.1 = k) = true
  · rw [if_pos ha] at hq
    obtain ⟨p, hp, hpq⟩ := List.mem_map.mp hq
    by_cases he : p.1 = k
    · left
      rw [if_pos he] at hpq
      exact hpq.symm
    · right
      rw [if_neg he] at hpq
      exact hpq ▸ hp
  · rw [if_neg ha] at hq
    rcases List.mem_append.mp hq with h | h
    · right; exact h
    · left; simpa using h

/-- Committing the in-progress article preserves the entry invariant. -/
theorem commitArticle_good (m : ArticleMap) (cur : Option Str)
    (acc : List Str) (hm : ∀ q ∈ m, q.1 ≠ [] ∧ GoodText q.2)
    (hacc : ∀ a ∈ acc, (∃ e, a = trim e) ∧ a ≠ []) :
    ∀ q ∈ commitArticle m cur acc, q.1 ≠ [] ∧ GoodText q.2 := by
  intro q hq
  cases cur with
  | none => exact hm q hq
  | some k =>
      by_cases hg : k ≠ [] ∧ acc ≠ []
      · rw [commitArticle, if_pos hg] at hq
        rcases dictSet_mem m k (List.intercalate ['\n'] acc) q hq with
          rfl | hold
        · exact ⟨hg.1, acc, hg.2, hacc, rfl⟩
        · exact hm q hold
      · rw [commitArticle, if_neg hg] at hq
        exact hm q hq

/-- Every entry the element walk produces has a non-empty key and a good
text. -/
theorem parse_go_good (es : List Str) :
    ∀ (cur : Option Str) (acc : List Str) (m : ArticleMap),
    (∀ q ∈ m, q.1 ≠ [] ∧ GoodText q.2) →
    (∀ a ∈ acc, (∃ e, a = trim e) ∧ a ≠ []) →
    ∀ q ∈ parse_go es cur acc m, q.1 ≠ [] ∧ GoodText q.2 := by
  induction es with
  | nil =>
      intro cur acc m hm hacc
      exact commitArticle_good m cur acc hm hacc
  | cons e es ih =>
      intro cur acc m hm hacc
      simp only [parse_go]
      by_cases ht : trim e = []
      · rw [if_pos ht]
        exact ih cur acc m hm hacc
      · rw [if_neg ht]
        cases hh : header_num (trim e) with
        | some k =>
            simp only []
            exact ih (some k) [trim e] (commitArticle m cur acc)
              (commitArticle_good m cur acc hm hacc)
              (by
                intro a ha
                simp only [List.mem_singleton] at ha
                exact ha ▸ ⟨⟨e, rfl⟩, ht⟩)
        | none =>
            cases cur with
            | some k0 =>
                simp only []
                exact ih (some k0) (acc ++ [trim e]) m hm
                  (by
                    intro a ha
                    rcases List.mem_append.mp ha with h | h
                    · exact hacc a h
                    · simp only [List.mem_singleton] at h
                      exact h ▸ ⟨⟨e, rfl⟩, ht⟩)
            | none =>
                simp only []
                exact ih none acc m hm hacc

/-- A matched header has a non-empty source text. -/
theorem header_src_ne_nil (t k : Str) (h : header_num t = some k) :
    t ≠ [] := by
  intro e
  subst e
  simp [header_num, dropLit] at h

/-- A matched header yields a non-empty identifier. -/
theorem header_num_ne_nil (t k : Str) (h : header_num t = some k) :
    k ≠ [] := by
  unfold header_num at h
  cases hd : dropLit (("Стаття").toList) t with
  | none => rw [hd] at h; simp at h
  | some r =>
      rw [hd] at h
      dsimp only at h
      by_cases hws : r.takeWhile isSpaceChar = []
      · rw [if_pos hws] at h
        simp at h
      · rw [if_neg hws] at h
        by_cases hds : (r.dropWhile isSpaceChar).takeWhile pyDigit = []
        · rw [if_pos hds] at h
          simp at h
        · rw [if_neg hds] at h
          cases hrest : (r.dropWhile isSpaceChar).dropWhile pyDigit with
          | nil =>
              rw [hrest] at h
              simp only [Option.some.injEq] at h
              exact h ▸ hds
          | cons c rest =>
              rw [hrest] at h
              dsimp only at h
              by_cases hcyr : isCyrSuffix c = true
              · rw [if_pos hcyr] at h
                simp only [Option.some.injEq] at h
                subst h
                simp
              · rw [if_neg hcyr] at h
                by_cases hdash : c = '-'
                · rw [if_pos hdash] at h
                  by_cases hds2 : rest.takeWhile pyDigit = []
                  · rw [if_pos hds2] at h
                    simp only [Option.some.injEq] at h
                    exact h ▸ hds
                  · rw [if_neg hds2] at h
                    simp only [Option.some.injEq] at h
                    subst h
                    simp
                · rw [if_neg hdash] at h
                  simp only [Option.some.injEq] at h
                  exact h ▸ hds

/-! ## C7: committed article text -/

/-- C7 (amended): every article text committed by the parse walk is the
newline-join of the per-element texts, each stripped of leading and
trailing whitespace and non-empty; in particular the whole text neither
starts nor ends with whitespace.  Internal whitespace runs inside one
element text are preserved, not collapsed. -/
theorem c7_committed_text (es : List Str) (k v : Str)
    (hmem : (k, v) ∈ parse_articles (some es)) :
    GoodText v ∧
    (∀ c, v.head? = some c → isSpaceChar c = false) ∧
    (∀ c, v.getLast? = some c → isSpaceChar c = false) := by
  have hg := parse_go_good es none [] [] (by simp) (by simp) (k, v) hmem
  obtain ⟨-, hgv⟩ := hg
  refine ⟨hgv, ?_, ?_⟩
  · intro c hc
    obtain ⟨parts, hne, hall, hv⟩ := hgv
    dsimp only at hv
    rw [hv] at hc
    obtain ⟨p, hp, hpc⟩ := intercalate_head_mem parts
      (fun p hp => (hall p hp).2) c hc
    obtain ⟨⟨e, rfl⟩, -⟩ := hall p hp
    exact trim_head_not_space e c hpc
  · intro c hc
    obtain ⟨parts, hne, hall, hv⟩ := hgv
    dsimp only at hv
    rw [hv] at hc
    obtain ⟨p, hp, hpc⟩ := intercalate_getLast_mem parts
      (fun p hp => (hall p hp).2) c hc
    obtain ⟨⟨e, rfl⟩, -⟩ := hall p hp
    exact trim_getLast_not_space e c hpc

/-- Counterexample for C7 as stated: an article whose element text holds
two adjacent spaces is committed with the run intact, so the committed
text differs from its whitespace-collapsed form. -/
theorem c7_counterexample :
    parse_articles (some [("Стаття 1. a  b").toList])
      = [((("1").toList), (("Стаття 1. a  b").toList))] ∧
    collapse_ws (("Стаття 1. a  b").toList) ≠ (("Стаття 1. a  b").toList) :=
  ⟨rfl, by decide⟩

/-- Witness for C7 at a concrete element list. -/
theorem c7_committed_text_witness :
    GoodText (("Стаття 1.  право").toList) ∧
    (∀ c, (("Стаття 1.  право").toList).head? = some c →
      isSpaceChar c = false) ∧
    (∀ c, (("Стаття 1.  право").toList).getLast? = some c →
      isSpaceChar c = false) :=
  c7_committed_text [("Стаття 1.  право  ").toList] (("1").toList)
    (("Стаття 1.  право").toList) (by decide)

/-! ## C9: parse-map invariants -/

/-- Elements with no article header before the rest of the document are
discarded by the walk. -/
theorem parse_prefix_discard (rest : List Str) :
    ∀ pre : List Str, (∀ e ∈ pre, header_num (trim e) = none) →
    parse_articles (some (pre ++ rest)) = parse_articles (some rest) := by
  intro pre
  induction pre with
  | nil => intro _; rfl
  | cons e pre ih =>
      intro hpre
      show parse_go (e :: (pre ++ rest)) none [] [] = parse_go rest none [] []
      simp only [parse_go]
      by_cases ht : trim e = []
      · rw [if_pos ht]
        exact ih (fun x hx => hpre x (by simp [hx]))
      · rw [if_neg ht, hpre e (by simp)]
        exact ih (fun x hx => hpre x (by simp [hx]))

/-- Two headers with the same identifier: the later accumulation
overwrites the earlier one. -/
theorem parse_last_wins (hA u hB w k : Str)
    (hkA : header_num (trim hA) = some k)
    (hkB : header_num (trim hB) = some k)
    (huT : trim u ≠ []) (huH : header_num (trim u) = none)
    (hwT : trim w ≠ []) (hwH : header_num (trim w) = none) :
    parse_articles (some [hA, u, hB, w])
      = [(k, trim hB ++ '\n' :: trim w)] := by
  have htA : trim hA ≠ [] := header_src_ne_nil (trim hA) k hkA
  have htB : trim hB ≠ [] := header_src_ne_nil (trim hB) k hkB
  have hk : k ≠ [] := header_num_ne_nil (trim hA) k hkA
  simp [parse_articles, parse_go, htA, hkA, huT, huH, htB, hkB, hwT, hwH,
    hk, commitArticle, dictSet, List.intercalate, List.intersperse]

/-- C9: every entry of a parsed map has a non-empty key and non-empty
text; text before the first matched header is in no article; and when two
headers carry the same identifier the later accumulation wins. -/
theorem c9_parse_invariants (es pre rest : List Str) (hA u hB w k : Str)
    (hpre : ∀ e ∈ pre, header_num (trim e) = none)
    (hkA : header_num (trim hA) = some k)
    (hkB : header_num (trim hB) = some k)
    (huT : trim u ≠ []) (huH : header_num (trim u) = none)
    (hwT : trim w ≠ []) (hwH : header_num (trim w) = none) :
    (∀ q ∈ parse_articles (some es), q.1 ≠ [] ∧ q.2 ≠ []) ∧
    parse_articles (some (pre ++ rest)) = parse_articles (some rest) ∧
    parse_articles (some [hA, u, hB, w])
      = [(k, trim hB ++ '\n' :: trim w)] := by
  refine ⟨?_, parse_prefix_discard rest pre hpre,
    parse_last_wins hA u hB w k hkA hkB huT huH hwT hwH⟩
  intro q hq
  have hg := parse_go_good es none [] [] (by simp) (by simp) q hq
  exact ⟨hg.1, goodText_ne_nil q.2 hg.2⟩

/-- Witness for C9 at concrete element lists: a small parse, a discarded
non-header prefix, and a duplicated header whose later text wins. -/
theorem c9_parse_invariants_witness :
    (∀ q ∈ parse_articles (some [("x").toList, ("Стаття 4").toList,
        ("тіло").toList]), q.1 ≠ [] ∧ q.2 ≠ []) ∧
    parse_articles (some ([("вступ").toList, (" ").toList] ++
        [("Стаття 2 y").toList]))
      = parse_articles (some [("Стаття 2 y").toList]) ∧
    parse_articles (some [("Стаття 3").toList, ("перший").toList,
        ("Стаття 3").toList, ("другий").toList])
      = [((("3").toList),
          trim (("Стаття 3").toList) ++ '\n' :: trim (("другий").toList))] :=
  c9_parse_invariants
    [("x").toList, ("Стаття 4").toList, ("тіло").toList]
    [("вступ").toList, (" ").toList] [("Стаття 2 y").toList]
    (("Стаття 3").toList) (("перший").toList) (("Стаття 3").toList)
    (("другий").toList) (("3").toList)
    (by decide) (by decide) (by decide) (by decide) (by decide) (by decide)
    (by decide)

end LawBot
